import Mathlib

/-!
Shallow embedding of `baseball_analysys.py` (Baseball Statistics Analysis).

Rows read from CSV are Python dicts from column name to raw string value,
modelled as insertion-ordered association lists.  Python floats are modelled
as exact rationals (`ℚ`); `float()` / `int()` are modelled on optionally
signed decimal literals, the only numeric texts the data files use
(exponents, infinities, NaN, whitespace and underscores are out of scope).
Fallible Python code (KeyError on a missing dict key, ValueError from a
failed numeric parse, TypeError, ZeroDivisionError from float division
by zero) is embedded in `Except Err`.
The Table Loader (`read_csv_as_list_dict` / `read_csv_as_nested_dict`) is
the spec's external collaborator: functions that read files in the source
receive the loaded table as an argument here.
-/

/-- Exceptions the Python code can raise: `KeyError` (missing dict key),
`ValueError` (from `int()` / `float()` on unparseable text), `TypeError`,
and `ZeroDivisionError` (float division by zero). -/
inductive Err where
  | keyError
  | parseError
  | typeError
  | zeroDivisionError
deriving DecidableEq

deriving instance DecidableEq for Except

/-- A CSV row: a Python dict from column name to raw string value. -/
abbrev Row : Type := List (String × String)

/-- Python `d[k]`: the first binding of `k` (dicts never repeat keys). -/
def dictGet {β : Type} (k : String) : List (String × β) → Option β
  | [] => none
  | (k', v) :: rest => if k' = k then some v else dictGet k rest

/-- Python `d[k] = v`: overwrite in place when the key is present
(keeping its position), append at the end otherwise — Python dicts
preserve insertion order. -/
def dictInsert {β : Type} (k : String) (v : β) : List (String × β) → List (String × β)
  | [] => [(k, v)]
  | (k', v') :: rest =>
    if k' = k then (k, v) :: rest else (k', v') :: dictInsert k v rest

/-- Numeric value of a digit string, most significant digit first. -/
def digitsVal (cs : List Char) : Nat :=
  cs.foldl (fun a c => a * 10 + (c.toNat - 48)) 0

/-- Modelled from Python `int()`: an optional sign followed by one or
more decimal digits. -/
def pyInt (s : String) : Option Int :=
  match s.toList with
  | '-' :: ds =>
    if !ds.isEmpty && ds.all Char.isDigit then some (-(digitsVal ds : Int)) else none
  | '+' :: ds =>
    if !ds.isEmpty && ds.all Char.isDigit then some ((digitsVal ds : Int)) else none
  | ds =>
    if !ds.isEmpty && ds.all Char.isDigit then some ((digitsVal ds : Int)) else none

/-- Unsigned part of a Python `float()` literal:
`digits`, `digits.digits`, `digits.` or `.digits`. -/
def pyFloatCore (ds : List Char) : Option ℚ :=
  match ds.dropWhile (fun c => c != '.') with
  | [] => if !ds.isEmpty && ds.all Char.isDigit then some ((digitsVal ds : ℚ)) else none
  | _ :: fp =>
    if (ds.takeWhile (fun c => c != '.')).all Char.isDigit && fp.all Char.isDigit &&
        !((ds.takeWhile (fun c => c != '.')).isEmpty && fp.isEmpty) then
      some ((digitsVal (ds.takeWhile (fun c => c != '.')) : ℚ) +
        (digitsVal fp : ℚ) / 10 ^ fp.length)
    else none

/-- Modelled from Python `float()`: an optionally signed decimal literal. -/
def pyFloat (s : String) : Option ℚ :=
  match s.toList with
  | '-' :: ds => (pyFloatCore ds).map (fun q => -q)
  | '+' :: ds => pyFloatCore ds
  | ds => pyFloatCore ds

/-- `float(batting_stats[col])`: `KeyError` when the column is absent,
`ValueError` when the text does not parse as a float. -/
def parseFieldQ (row : Row) (col : String) : Except Err ℚ :=
  match dictGet col row with
  | none => .error .keyError
  | some s =>
    match pyFloat s with
    | none => .error .parseError
    | some q => .ok q

/-- Typical cutoff used for official statistics (`MINIMUM_AB = 500`). -/
def MINIMUM_AB : ℚ := 500

/-- The Field Map `info`, restricted to the string-valued roles the core
logic reads (file names, separator and quote belong to the external
Table Loader and are not used by the embedded functions). -/
structure Info where
  hits : String
  atbats : String
  walks : String
  doubles : String
  triples : String
  homeruns : String
  playerid : String
  firstname : String
  lastname : String

/-- Compute batting average (H/AB) if AB >= MINIMUM_AB, else 0. -/
def batting_average (info : Info) (batting_stats : Row) : Except Err ℚ :=
  match parseFieldQ batting_stats info.hits with
  | .error e => .error e
  | .ok hits =>
    match parseFieldQ batting_stats info.atbats with
    | .error e => .error e
    | .ok at_bats =>
      if at_bats ≥ MINIMUM_AB then .ok (hits / at_bats) else .ok 0

/-- Compute on-base percentage (H+BB)/(AB+BB) if AB >= MINIMUM_AB, else 0.
Python float division raises ZeroDivisionError when the denominator
AB+BB is zero (reachable, e.g. at AB = 500 with BB = -500); the other
two formulas divide by AB ≥ 500 > 0 when eligible, so only this formula
carries the explicit check. -/
def onbase_percentage (info : Info) (batting_stats : Row) : Except Err ℚ :=
  match parseFieldQ batting_stats info.hits with
  | .error e => .error e
  | .ok hits =>
    match parseFieldQ batting_stats info.atbats with
    | .error e => .error e
    | .ok at_bats =>
      match parseFieldQ batting_stats info.walks with
      | .error e => .error e
      | .ok walks =>
        if at_bats ≥ MINIMUM_AB then
          if at_bats + walks = 0 then .error .zeroDivisionError
          else .ok ((hits + walks) / (at_bats + walks))
        else .ok 0

/-- Compute slugging percentage ((1B+2*2B+3*3B+4*HR)/AB) if AB >= MINIMUM_AB,
else 0; the five fields are parsed in source order (hits, doubles, triples,
home runs, then at-bats) before the eligibility test. -/
def slugging_percentage (info : Info) (batting_stats : Row) : Except Err ℚ :=
  match parseFieldQ batting_stats info.hits with
  | .error e => .error e
  | .ok hits =>
    match parseFieldQ batting_stats info.doubles with
    | .error e => .error e
    | .ok doubles =>
      match parseFieldQ batting_stats info.triples with
      | .error e => .error e
      | .ok triples =>
        match parseFieldQ batting_stats info.homeruns with
        | .error e => .error e
        | .ok home_runs =>
          match parseFieldQ batting_stats info.atbats with
          | .error e => .error e
          | .ok at_bats =>
            if at_bats ≥ MINIMUM_AB then
              .ok (((hits - doubles - triples - home_runs) +
                2 * doubles + 3 * triples + 4 * home_runs) / at_bats)
            else .ok 0

/-- A scoring formula, as passed to `top_player_ids` (`formula(info, stat)`). -/
abbrev Formula : Type := Info → Row → Except Err ℚ

/-- A Python for-loop that appends one result per element, aborting at the
first raised exception. -/
def mapE {α β : Type} (f : α → Except Err β) : List α → Except Err (List β)
  | [] => .ok []
  | x :: xs =>
    match f x with
    | .error e => .error e
    | .ok y =>
      match mapE f xs with
      | .error e => .error e
      | .ok ys => .ok (y :: ys)

/-- Loop body of `top_player_ids`: compute `formula(info, stat)`, then read
`stat[pid_field]` (in that source order). -/
def scoreRow (info : Info) (formula : Formula) (stat : Row) : Except Err (String × ℚ) :=
  match formula info stat with
  | .error e => .error e
  | .ok score =>
    match dictGet info.playerid stat with
    | none => .error .keyError
    | some pid => .ok (pid, score)

/-- The `scored` list built by the loop in `top_player_ids`. -/
def scoredOf (info : Info) (statistics : List Row) (formula : Formula) :
    Except Err (List (String × ℚ)) :=
  mapE (scoreRow info formula) statistics

/-- One step of the stable descending insertion on (id, score) pairs:
the new element goes in front of the first existing element whose score
is not larger. -/
def insertD (x : String × ℚ) : List (String × ℚ) → List (String × ℚ)
  | [] => [x]
  | y :: ys => if y.2 ≤ x.2 then x :: y :: ys else y :: insertD x ys

/-- `scored.sort(key=lambda x: x[1], reverse=True)`: Python's sort is
stable, and a stable non-increasing sort of a given list is unique, so it
is rendered as stable insertion sort. -/
def sortD : List (String × ℚ) → List (String × ℚ)
  | [] => []
  | x :: xs => insertD x (sortD xs)

/-- Python slicing `l[:n]` for an int `n`: a nonnegative `n` keeps the
first `n` items; a negative `n` drops the last `|n|` items (clamped at
zero either way). -/
def pyTake {α : Type} (n : Int) (l : List α) : List α :=
  if 0 ≤ n then l.take n.toNat else l.take ((l.length : Int) + n).toNat

/-- Compute top numplayers (playerID, stat) sorted descending by stat. -/
def top_player_ids (info : Info) (statistics : List Row) (formula : Formula)
    (numplayers : Int) : Except Err (List (String × ℚ)) :=
  match scoredOf info statistics formula with
  | .error e => .error e
  | .ok scored => .ok (pyTake numplayers (sortD scored))

/-- Filter list of stat dicts to only those matching given year
(`if int(stat[yearid]) == year: res.append(stat)`, first raised
exception aborting the loop). -/
def filter_by_year (statistics : List Row) (year : Int) (yearid : String) :
    Except Err (List Row) :=
  match statistics with
  | [] => .ok []
  | stat :: rest =>
    match dictGet yearid stat with
    | none => .error .keyError
    | some s =>
      match pyInt s with
      | none => .error .parseError
      | some y =>
        match filter_by_year rest year yearid with
        | .error e => .error e
        | .ok res => .ok (if y = year then stat :: res else res)

/-- A concrete Field Map used by the witnesses. -/
def infoW : Info :=
  Info.mk r"H" r"AB" r"BB" r"2B" r"3B" r"HR" r"playerID" r"nameFirst" r"nameLast"

/-- A concrete row below the at-bats threshold. -/
def rowLowW : Row :=
  [(r"playerID", r"p1"), (r"yearID", r"2001"), (r"H", r"100"), (r"AB", r"400"),
    (r"BB", r"10"), (r"2B", r"20"), (r"3B", r"5"), (r"HR", r"1")]

/-- A concrete row at or above the at-bats threshold. -/
def rowHighW : Row :=
  [(r"playerID", r"p2"), (r"yearID", r"2001"), (r"H", r"200"), (r"AB", r"600"),
    (r"BB", r"50"), (r"2B", r"30"), (r"3B", r"6"), (r"HR", r"12")]

/-- An eligible row (exactly 500 at-bats) whose walks parse to -500, so
the on-base denominator AB+BB is zero. -/
def rowZeroW : Row :=
  [(r"playerID", r"p6"), (r"H", r"200"), (r"AB", r"500"), (r"BB", r"-500"),
    (r"2B", r"0"), (r"3B", r"0"), (r"HR", r"0")]

/-- C1 counterexample: on `rowZeroW` the parsed at-bats are 500 (eligible),
yet onbase_percentage raises ZeroDivisionError — the source divides by
AB+BB = 0 at line 75 — instead of returning the formula's ratio, so the
claim that every eligible row gets the ratio is false. -/
theorem C1_counterexample_zero_denominator :
    onbase_percentage infoW rowZeroW = .error Err.zeroDivisionError ∧
      ¬ onbase_percentage infoW rowZeroW =
        .ok ((200 + (-500)) / ((500 : ℚ) + (-500))) := by
  have h1 : parseFieldQ rowZeroW infoW.hits = .ok 200 := by decide
  have h2 : parseFieldQ rowZeroW infoW.atbats = .ok 500 := by decide
  have h3 : parseFieldQ rowZeroW infoW.walks = .ok (-500) := by decide
  have hmain : onbase_percentage infoW rowZeroW = .error Err.zeroDivisionError := by
    simp [onbase_percentage, h1, h2, h3, MINIMUM_AB, ge_iff_le,
      show (500 : ℚ) + (-500) = 0 by norm_num]
  exact ⟨hmain, by rw [hmain]; simp⟩

/-- C1 amended: for a row whose required statistic fields all parse, each
of the three metric formulas returns exactly 0 when the parsed at-bats
value is below the minimum threshold 500; when the parsed at-bats value
is at least 500, batting_average and slugging_percentage return their
ratios, and onbase_percentage returns its ratio when the denominator
AB+BB is non-zero and raises ZeroDivisionError when it is zero. -/
theorem C1_threshold_gates_formulas (info : Info) (row : Row)
    (h ab w d t hr : ℚ)
    (hH : parseFieldQ row info.hits = .ok h)
    (hA : parseFieldQ row info.atbats = .ok ab)
    (hW : parseFieldQ row info.walks = .ok w)
    (hD : parseFieldQ row info.doubles = .ok d)
    (hT : parseFieldQ row info.triples = .ok t)
    (hR : parseFieldQ row info.homeruns = .ok hr) :
    (ab < 500 →
      batting_average info row = .ok 0 ∧
      onbase_percentage info row = .ok 0 ∧
      slugging_percentage info row = .ok 0) ∧
    (500 ≤ ab →
      batting_average info row = .ok (h / ab) ∧
      (¬ ab + w = 0 → onbase_percentage info row = .ok ((h + w) / (ab + w))) ∧
      (ab + w = 0 → onbase_percentage info row = .error Err.zeroDivisionError) ∧
      slugging_percentage info row = .ok
        (((h - d - t - hr) + 2 * d + 3 * t + 4 * hr) / ab)) := by
  constructor
  · intro hlt
    refine ⟨?_, ?_, ?_⟩ <;>
      simp [batting_average, onbase_percentage, slugging_percentage, hH, hA, hW,
        hD, hT, hR, MINIMUM_AB, ge_iff_le, not_le.2 hlt]
  · intro hge
    refine ⟨?_, ?_, ?_, ?_⟩
    · simp [batting_average, hH, hA, MINIMUM_AB, ge_iff_le, hge]
    · intro hden
      simp [onbase_percentage, hH, hA, hW, MINIMUM_AB, ge_iff_le, hge, hden]
    · intro hden
      simp [onbase_percentage, hH, hA, hW, MINIMUM_AB, ge_iff_le, hge, hden]
    · simp [slugging_percentage, hH, hA, hD, hT, hR, MINIMUM_AB, ge_iff_le, hge]

/-- Witness for the amended C1 at a row with 400 at-bats (formulas give 0)
and a row with 600 at-bats (batting average 200/600, on-base with the
non-zero denominator 650). -/
theorem C1_threshold_gates_formulas_witness :
    batting_average infoW rowLowW = .ok 0 ∧
      slugging_percentage infoW rowLowW = .ok 0 ∧
      batting_average infoW rowHighW = .ok ((200 : ℚ) / 600) ∧
      onbase_percentage infoW rowHighW = .ok ((200 + 50) / ((600 : ℚ) + 50)) := by
  refine ⟨?_, ?_, ?_, ?_⟩
  · exact ((C1_threshold_gates_formulas infoW rowLowW 100 400 10 20 5 1
      (by decide) (by decide) (by decide) (by decide) (by decide) (by decide)).1
      (by norm_num)).1
  · exact ((C1_threshold_gates_formulas infoW rowLowW 100 400 10 20 5 1
      (by decide) (by decide) (by decide) (by decide) (by decide) (by decide)).1
      (by norm_num)).2.2
  · exact ((C1_threshold_gates_formulas infoW rowHighW 200 600 50 30 6 12
      (by decide) (by decide) (by decide) (by decide) (by decide) (by decide)).2
      (by norm_num)).1
  · exact ((C1_threshold_gates_formulas infoW rowHighW 200 600 50 30 6 12
      (by decide) (by decide) (by decide) (by decide) (by decide) (by decide)).2
      (by norm_num)).2.1 (by norm_num)

/-- Membership in an insertion step. -/
theorem mem_insertD (z x : String × ℚ) (l : List (String × ℚ)) :
    z ∈ insertD x l ↔ z = x ∨ z ∈ l := by
  induction l with
  | nil => simp [insertD]
  | cons y ys ih =>
    by_cases hc : y.2 ≤ x.2 <;> simp [insertD, hc, ih] <;> tauto

/-- Inserting into a non-increasing list keeps it non-increasing. -/
theorem insertD_pairwise (x : String × ℚ) (l : List (String × ℚ))
    (hl : l.Pairwise (fun a b => b.2 ≤ a.2)) :
    (insertD x l).Pairwise (fun a b => b.2 ≤ a.2) := by
  induction l with
  | nil => simp [insertD]
  | cons y ys ih =>
    rw [List.pairwise_cons] at hl
    obtain ⟨hy, hys⟩ := hl
    by_cases hc : y.2 ≤ x.2
    · simp only [insertD, if_pos hc]
      rw [List.pairwise_cons]
      refine ⟨?_, ?_⟩
      · intro z hz
        rcases List.mem_cons.1 hz with rfl | hz2
        · exact hc
        · exact le_trans (hy z hz2) hc
      · rw [List.pairwise_cons]
        exact ⟨hy, hys⟩
    · simp only [insertD, if_neg hc]
      rw [List.pairwise_cons]
      refine ⟨?_, ih hys⟩
      intro z hz
      rcases (mem_insertD z x ys).1 hz with rfl | hz
      · exact le_of_lt (not_le.1 hc)
      · exact hy z hz

/-- The sorted list is non-increasing in the score component. -/
theorem sortD_pairwise (l : List (String × ℚ)) :
    (sortD l).Pairwise (fun a b => b.2 ≤ a.2) := by
  induction l with
  | nil => simp [sortD]
  | cons x xs ih => exact insertD_pairwise x (sortD xs) ih

/-- Insertion adds one element. -/
theorem length_insertD (x : String × ℚ) (l : List (String × ℚ)) :
    (insertD x l).length = l.length + 1 := by
  induction l with
  | nil => simp [insertD]
  | cons y ys ih => by_cases hc : y.2 ≤ x.2 <;> simp [insertD, hc, ih]

/-- Sorting preserves length. -/
theorem length_sortD (l : List (String × ℚ)) : (sortD l).length = l.length := by
  induction l with
  | nil => simp [sortD]
  | cons x xs ih => simp [sortD, length_insertD, ih]

/-- Filtering the equal-score entries commutes with one insertion:
the elements the insertion skips all have a strictly larger score. -/
theorem filter_insertD (q : ℚ) (x : String × ℚ) (l : List (String × ℚ)) :
    (insertD x l).filter (fun e => e.2 == q) =
      if x.2 = q then x :: l.filter (fun e => e.2 == q)
      else l.filter (fun e => e.2 == q) := by
  induction l with
  | nil => by_cases hx : x.2 = q <;> simp [insertD, hx]
  | cons y ys ih =>
    simp only [insertD]
    by_cases hc : y.2 ≤ x.2
    · rw [if_pos hc]
      by_cases hx : x.2 = q <;> simp [List.filter_cons, hx]
    · rw [if_neg hc]
      by_cases hx : x.2 = q
      · have hy : ¬ (y.2 = q) := by
          intro hyq
          exact hc (le_of_eq (hyq.trans hx.symm))
        simp [List.filter_cons, hx, hy, ih]
      · simp [List.filter_cons, hx, ih]

/-- The stable sort leaves each equal-score subsequence unchanged. -/
theorem filter_sortD (q : ℚ) (l : List (String × ℚ)) :
    (sortD l).filter (fun e => e.2 == q) = l.filter (fun e => e.2 == q) := by
  induction l with
  | nil => simp [sortD]
  | cons x xs ih =>
    by_cases hx : x.2 = q <;>
      simp [sortD, filter_insertD, hx, List.filter_cons, ih]

/-- A slice is a sublist of the sliced list. -/
theorem pyTake_sublist {α : Type} (n : Int) (l : List α) : List.Sublist (pyTake n l) l := by
  rw [pyTake]
  split <;> exact List.take_sublist _ _

/-- Inverting one step of the loop `mapE`. -/
theorem mapE_cons_ok {α β : Type} (f : α → Except Err β) (x : α) (xs : List α)
    (ys : List β) : mapE f (x :: xs) = .ok ys ↔
      ∃ y ys2, f x = .ok y ∧ mapE f xs = .ok ys2 ∧ ys = y :: ys2 := by
  cases hfx : f x with
  | error e => simp [mapE, hfx]
  | ok y =>
    cases hm : mapE f xs with
    | error e => simp [mapE, hfx, hm]
    | ok ys2 =>
      simp only [mapE, hfx, hm]
      constructor
      · intro h
        exact ⟨y, ys2, rfl, rfl, (Except.ok.inj h).symm⟩
      · rintro ⟨y', ys2', hy, hys, rfl⟩
        rw [Except.ok.inj hy, Except.ok.inj hys]

/-- A successful loop produces one output per input. -/
theorem mapE_ok_length {α β : Type} (f : α → Except Err β) (l : List α)
    (ys : List β) (h : mapE f l = .ok ys) : ys.length = l.length := by
  induction l generalizing ys with
  | nil =>
    simp [mapE] at h
    simp [← h]
  | cons x xs ih =>
    obtain ⟨y, ys2, _, hm, rfl⟩ := (mapE_cons_ok f x xs ys).1 h
    simp [ih ys2 hm]

/-- C2: a successfully returned ranked list is sorted non-increasingly by
score, and its entries of any fixed score form a sublist of the scored
input's entries of that score, i.e. equal-score entries retain their
relative input order (the sort is stable). -/
theorem C2_ranked_sorted_stable (info : Info) (statistics : List Row)
    (formula : Formula) (numplayers : Int) (scored res : List (String × ℚ))
    (hs : scoredOf info statistics formula = .ok scored)
    (h : top_player_ids info statistics formula numplayers = .ok res) :
    res.Pairwise (fun a b => b.2 ≤ a.2) ∧
      ∀ q : ℚ, List.Sublist (res.filter (fun e => e.2 == q))
        (scored.filter (fun e => e.2 == q)) := by
  have hres : res = pyTake numplayers (sortD scored) := by
    rw [top_player_ids, hs] at h
    exact (Except.ok.inj h).symm
  subst hres
  constructor
  · exact (sortD_pairwise scored).sublist (pyTake_sublist _ _)
  · intro q
    have h1 := (pyTake_sublist numplayers (sortD scored)).filter
      (fun e => e.2 == q)
    rwa [filter_sortD q scored] at h1

/-- The scoring formula used by the ranking witnesses: it reads the
column "S" as the score, so the concrete scores stay integral. -/
def fieldFormula : Formula := fun _ row => parseFieldQ row r"S"

/-- Concrete rows for the ranking witnesses (two tied scores). -/
def rowsW2 : List Row :=
  [[(r"playerID", r"a"), (r"S", r"3")],
   [(r"playerID", r"b"), (r"S", r"7")],
   [(r"playerID", r"c"), (r"S", r"3")]]

/-- The scored list of `rowsW2`. -/
def scoredW2 : List (String × ℚ) :=
  [(r"a", (3 : ℚ)), (r"b", (7 : ℚ)), (r"c", (3 : ℚ))]

/-- The top-2 ranked list of `rowsW2`. -/
def resW2 : List (String × ℚ) := [(r"b", (7 : ℚ)), (r"a", (3 : ℚ))]

/-- The full ranked list of `rowsW2`. -/
def resW3 : List (String × ℚ) :=
  [(r"b", (7 : ℚ)), (r"a", (3 : ℚ)), (r"c", (3 : ℚ))]

/-- Witness for C2: the full ranked list of `rowsW2` is non-increasing and
its entries of score 3 keep their input order a-before-c. -/
theorem C2_ranked_sorted_stable_witness :
    resW3.Pairwise (fun a b => b.2 ≤ a.2) ∧
      List.Sublist (resW3.filter (fun e => e.2 == (3 : ℚ)))
        (scoredW2.filter (fun e => e.2 == (3 : ℚ))) := by
  have h := C2_ranked_sorted_stable infoW rowsW2 fieldFormula 3 scoredW2 resW3
    (by decide) (by decide)
  exact ⟨h.1, h.2 3⟩

/-- C3: for a nonnegative requested count, a successfully returned ranked
list has length min(N, number of scored entries); N = 0 yields the empty
list and an N at least the input size yields the whole sorted list. -/
theorem C3_ranked_length (info : Info) (statistics : List Row)
    (formula : Formula) (numplayers : Int) (scored res : List (String × ℚ))
    (hn : 0 ≤ numplayers)
    (hs : scoredOf info statistics formula = .ok scored)
    (h : top_player_ids info statistics formula numplayers = .ok res) :
    res.length = min numplayers.toNat statistics.length ∧
      (numplayers = 0 → res = []) ∧
      ((statistics.length : Int) ≤ numplayers → res = sortD scored) := by
  have hlen : scored.length = statistics.length := mapE_ok_length _ _ _ hs
  have hres : res = pyTake numplayers (sortD scored) := by
    rw [top_player_ids, hs] at h
    exact (Except.ok.inj h).symm
  subst hres
  refine ⟨?_, ?_, ?_⟩
  · rw [pyTake, if_pos hn, List.length_take, length_sortD, hlen]
  · intro h0
    subst h0
    simp [pyTake]
  · intro hge
    rw [pyTake, if_pos hn]
    apply List.take_of_length_le
    rw [length_sortD, hlen]
    omega

/-- Witness for C3 at N = 2 over three scored rows. -/
theorem C3_ranked_length_witness :
    resW2.length = min (Int.toNat 2) rowsW2.length ∧
      ((2 : Int) = 0 → resW2 = []) ∧
      ((rowsW2.length : Int) ≤ 2 → resW2 = sortD scoredW2) :=
  C3_ranked_length infoW rowsW2 fieldFormula 2 scoredW2 resW2
    (by decide) (by decide) (by decide)

/-- C9: for a negative requested count, a successfully returned ranked
list is the sorted scored list with its last |N| entries dropped, and it
is non-empty whenever the input has more than |N| rows. -/
theorem C9_negative_count_drops_tail (info : Info) (statistics : List Row)
    (formula : Formula) (numplayers : Int) (scored res : List (String × ℚ))
    (hn : numplayers < 0)
    (hs : scoredOf info statistics formula = .ok scored)
    (h : top_player_ids info statistics formula numplayers = .ok res) :
    res = (sortD scored).take ((statistics.length : Int) + numplayers).toNat ∧
      ((-numplayers).toNat < statistics.length → res ≠ []) := by
  have hlen : scored.length = statistics.length := mapE_ok_length _ _ _ hs
  have hres : res = pyTake numplayers (sortD scored) := by
    rw [top_player_ids, hs] at h
    exact (Except.ok.inj h).symm
  subst hres
  have hneg : ¬ (0 ≤ numplayers) := not_le.2 hn
  constructor
  · rw [pyTake, if_neg hneg, length_sortD, hlen]
  · intro hlt hemp
    rw [pyTake, if_neg hneg, length_sortD, hlen] at hemp
    rcases List.take_eq_nil_iff.1 hemp with hzero | hnil
    · omega
    · have hzl := congrArg List.length hnil
      rw [length_sortD, hlen, List.length_nil] at hzl
      omega

/-- Witness for C9 at N = -1 over three scored rows: the last entry is
dropped and the result is non-empty. -/
theorem C9_negative_count_drops_tail_witness :
    resW2 = (sortD scoredW2).take ((rowsW2.length : Int) + (-1)).toNat ∧
      ((-(-1) : Int).toNat < rowsW2.length → resW2 ≠ []) :=
  C9_negative_count_drops_tail infoW rowsW2 fieldFormula (-1) scoredW2 resW2
    (by decide) (by decide) (by decide)

/-- C7: when every row's year column parses as an integer, filter_by_year
returns exactly the subsequence of rows whose parsed year equals the
target year, in the original order (a List.filter of the input). -/
theorem C7_filter_by_year_is_filter (statistics : List Row) (year : Int)
    (yearid : String)
    (hp : ∀ stat ∈ statistics, ∃ y : Int, (dictGet yearid stat).bind pyInt = some y) :
    filter_by_year statistics year yearid =
      .ok (statistics.filter
        (fun stat => (dictGet yearid stat).bind pyInt == some year)) := by
  induction statistics with
  | nil => simp [filter_by_year]
  | cons stat rest ih =>
    obtain ⟨y, hy⟩ := hp stat (List.mem_cons_self stat rest)
    cases hg : dictGet yearid stat with
    | none => rw [hg] at hy; simp at hy
    | some s =>
      rw [hg] at hy
      simp only [Option.some_bind] at hy
      have hrest := ih (fun st hst => hp st (List.mem_cons_of_mem stat hst))
      by_cases hyy : y = year
      · subst hyy
        simp [filter_by_year, hg, hy, hrest, List.filter_cons]
      · simp [filter_by_year, hg, hy, hrest, List.filter_cons, hyy]

/-- Concrete rows for the year-filter witness. -/
def rowsW7 : List Row :=
  [[(r"playerID", r"a"), (r"yearID", r"2001")],
   [(r"playerID", r"b"), (r"yearID", r"2002")],
   [(r"playerID", r"c"), (r"yearID", r"2001")]]

/-- Witness for C7: filtering `rowsW7` by year 2001 keeps rows a and c. -/
theorem C7_filter_by_year_is_filter_witness :
    filter_by_year rowsW7 2001 r"yearID" =
      .ok (rowsW7.filter
        (fun stat => (dictGet r"yearID" stat).bind pyInt == some 2001)) :=
  C7_filter_by_year_is_filter rowsW7 2001 r"yearID" (by
    intro stat hst
    simp only [rowsW7, List.mem_cons, List.not_mem_nil, or_false] at hst
    rcases hst with rfl | rfl | rfl
    · exact ⟨2001, by decide⟩
    · exact ⟨2002, by decide⟩
    · exact ⟨2001, by decide⟩)

/-- C10: each metric formula parses every one of its required statistic
fields before testing eligibility, so any required field whose text does
not parse — hits for batting_average; hits or walks for
onbase_percentage; hits, doubles, triples or home runs for
slugging_percentage — makes that formula raise ValueError even though
the row's at-bats parse below the threshold and the result would
otherwise be exactly 0. -/
theorem C10_parse_precedes_threshold (info : Info) (row : Row)
    (sh sa sw sd st2 sr : String) (ab : ℚ)
    (hH : dictGet info.hits row = some sh)
    (hA : dictGet info.atbats row = some sa)
    (hW : dictGet info.walks row = some sw)
    (hD : dictGet info.doubles row = some sd)
    (hT : dictGet info.triples row = some st2)
    (hR : dictGet info.homeruns row = some sr)
    (hab : pyFloat sa = some ab)
    (habLt : ab < MINIMUM_AB) :
    (pyFloat sh = none → batting_average info row = .error Err.parseError) ∧
      ((pyFloat sh = none ∨ pyFloat sw = none) →
        onbase_percentage info row = .error Err.parseError) ∧
      ((pyFloat sh = none ∨ pyFloat sd = none ∨ pyFloat st2 = none ∨
          pyFloat sr = none) →
        slugging_percentage info row = .error Err.parseError) := by
  refine ⟨?_, ?_, ?_⟩
  · intro hbad
    simp [batting_average, parseFieldQ, hH, hbad]
  · intro hbad
    cases hsh : pyFloat sh with
    | none => simp [onbase_percentage, parseFieldQ, hH, hsh]
    | some qh =>
      rcases hbad with hb | hb
      · rw [hsh] at hb
        exact absurd hb (by simp)
      · simp [onbase_percentage, parseFieldQ, hH, hsh, hA, hab, hW, hb]
  · intro hbad
    cases hsh : pyFloat sh with
    | none => simp [slugging_percentage, parseFieldQ, hH, hsh]
    | some qh =>
      cases hsd : pyFloat sd with
      | none => simp [slugging_percentage, parseFieldQ, hH, hsh, hD, hsd]
      | some qd =>
        cases hst : pyFloat st2 with
        | none =>
          simp [slugging_percentage, parseFieldQ, hH, hsh, hD, hsd, hT, hst]
        | some qt =>
          cases hsr : pyFloat sr with
          | none =>
            simp [slugging_percentage, parseFieldQ, hH, hsh, hD, hsd, hT,
              hst, hR, hsr]
          | some qr =>
            rcases hbad with hb | hb | hb | hb
            · rw [hsh] at hb
              exact absurd hb (by simp)
            · rw [hsd] at hb
              exact absurd hb (by simp)
            · rw [hst] at hb
              exact absurd hb (by simp)
            · rw [hsr] at hb
              exact absurd hb (by simp)

/-- A row with all six stat columns, 400 at-bats, and unparseable walks
and doubles texts. -/
def rowBadW : Row :=
  [(r"playerID", r"p3"), (r"H", r"100"), (r"AB", r"400"),
    (r"BB", r"n/a"), (r"2B", r"n/a"), (r"3B", r"0"), (r"HR", r"0")]

/-- A row with all six stat columns, 400 at-bats, and unparseable hits
text. -/
def rowBadHW : Row :=
  [(r"playerID", r"p5"), (r"H", r"n/a"), (r"AB", r"400"),
    (r"BB", r"0"), (r"2B", r"0"), (r"3B", r"0"), (r"HR", r"0")]

/-- Witness for C10: on `rowBadHW` (hits unparseable, 400 at-bats)
batting_average raises ValueError, and on `rowBadW` (walks and doubles
unparseable, 400 at-bats) the other two formulas raise ValueError,
instead of any of them returning 0. -/
theorem C10_parse_precedes_threshold_witness :
    batting_average infoW rowBadHW = .error Err.parseError ∧
      onbase_percentage infoW rowBadW = .error Err.parseError ∧
      slugging_percentage infoW rowBadW = .error Err.parseError := by
  refine ⟨?_, ?_, ?_⟩
  · exact (C10_parse_precedes_threshold infoW rowBadHW r"n/a" r"400" r"0" r"0"
      r"0" r"0" 400 (by decide) (by decide) (by decide) (by decide) (by decide)
      (by decide) (by decide) (by norm_num [MINIMUM_AB])).1 (by decide)
  · exact (C10_parse_precedes_threshold infoW rowBadW r"100" r"400" r"n/a"
      r"n/a" r"0" r"0" 400 (by decide) (by decide) (by decide) (by decide)
      (by decide) (by decide) (by decide) (by norm_num [MINIMUM_AB])).2.1
      (Or.inr (by decide))
  · exact (C10_parse_precedes_threshold infoW rowBadW r"100" r"400" r"n/a"
      r"n/a" r"0" r"0" 400 (by decide) (by decide) (by decide) (by decide)
      (by decide) (by decide) (by decide) (by norm_num [MINIMUM_AB])).2.2
      (Or.inr (Or.inl (by decide)))

/-- A row with negative hits text and 600 at-bats (eligible). -/
def rowNegW : Row :=
  [(r"playerID", r"p4"), (r"H", r"-10"), (r"AB", r"600"), (r"BB", r"0"),
    (r"2B", r"0"), (r"3B", r"0"), (r"HR", r"0")]

/-- C5 counterexample: on `rowNegW` the player is eligible (600 at-bats)
and batting_average returns -10/600, which is negative, so the claimed
codomain [0, +∞) is violated; the code propagates negative inputs as-is. -/
theorem C5_counterexample_negative_score :
    batting_average infoW rowNegW = .ok ((-10 : ℚ) / 600) ∧
      ¬ (0 ≤ ((-10 : ℚ) / 600)) := by
  constructor
  · have h1 : parseFieldQ rowNegW infoW.hits = .ok (-10) := by decide
    have h2 : parseFieldQ rowNegW infoW.atbats = .ok 600 := by decide
    simp [batting_average, h1, h2, MINIMUM_AB, ge_iff_le,
      show (500 : ℚ) ≤ 600 by norm_num]
  · norm_num

/-- C5 amended: for a row whose required statistic fields all parse to
NONNEGATIVE values, each metric formula returns a score in [0, +∞), and
exactly 0 when the player is ineligible (parsed at-bats below 500). -/
theorem C5_amended_nonneg_scores (info : Info) (row : Row)
    (h ab w d t hr : ℚ)
    (hH : parseFieldQ row info.hits = .ok h)
    (hA : parseFieldQ row info.atbats = .ok ab)
    (hW : parseFieldQ row info.walks = .ok w)
    (hD : parseFieldQ row info.doubles = .ok d)
    (hT : parseFieldQ row info.triples = .ok t)
    (hR : parseFieldQ row info.homeruns = .ok hr)
    (h0 : 0 ≤ h) (w0 : 0 ≤ w) (d0 : 0 ≤ d) (t0 : 0 ≤ t) (hr0 : 0 ≤ hr) :
    (∃ b, batting_average info row = .ok b ∧ 0 ≤ b) ∧
      (∃ o, onbase_percentage info row = .ok o ∧ 0 ≤ o) ∧
      (∃ s, slugging_percentage info row = .ok s ∧ 0 ≤ s) ∧
      (ab < 500 → batting_average info row = .ok 0 ∧
        onbase_percentage info row = .ok 0 ∧
        slugging_percentage info row = .ok 0) := by
  by_cases hab : MINIMUM_AB ≤ ab
  · have habq : (500 : ℚ) ≤ ab := hab
    have abpos : (0 : ℚ) ≤ ab := le_trans (by norm_num) habq
    have hden : ¬ ab + w = 0 := by
      have : (0 : ℚ) < ab + w := by linarith
      exact this.ne'
    refine ⟨⟨h / ab, ?_, div_nonneg h0 abpos⟩,
      ⟨(h + w) / (ab + w), ?_, div_nonneg (add_nonneg h0 w0) (add_nonneg abpos w0)⟩,
      ⟨((h - d - t - hr) + 2 * d + 3 * t + 4 * hr) / ab, ?_,
        div_nonneg (by linarith) abpos⟩,
      ?_⟩
    · simp [batting_average, hH, hA, ge_iff_le, hab]
    · simp [onbase_percentage, hH, hA, hW, ge_iff_le, hab, hden]
    · simp [slugging_percentage, hH, hA, hD, hT, hR, ge_iff_le, hab]
    · intro hlt
      exact absurd habq (not_le.2 hlt)
  · have hne := hab
    refine ⟨⟨0, ?_, le_refl 0⟩, ⟨0, ?_, le_refl 0⟩, ⟨0, ?_, le_refl 0⟩, fun _ => ⟨?_, ?_, ?_⟩⟩ <;>
      simp [batting_average, onbase_percentage, slugging_percentage,
        hH, hA, hW, hD, hT, hR, ge_iff_le, hne]

/-- Witness for the amended C5 at `rowHighW` (all fields nonnegative,
eligible with 600 at-bats). -/
theorem C5_amended_nonneg_scores_witness :
    (∃ b, batting_average infoW rowHighW = .ok b ∧ 0 ≤ b) ∧
      (∃ o, onbase_percentage infoW rowHighW = .ok o ∧ 0 ≤ o) ∧
      (∃ s, slugging_percentage infoW rowHighW = .ok s ∧ 0 ≤ s) ∧
      ((600 : ℚ) < 500 → batting_average infoW rowHighW = .ok 0 ∧
        onbase_percentage infoW rowHighW = .ok 0 ∧
        slugging_percentage infoW rowHighW = .ok 0) :=
  C5_amended_nonneg_scores infoW rowHighW 200 600 50 30 6 12
    (by decide) (by decide) (by decide) (by decide) (by decide) (by decide)
    (by norm_num) (by norm_num) (by norm_num) (by norm_num) (by norm_num)

/-- Decimal digits of `n`, most significant first; `fuel` bounds the
recursion depth and `natStr` supplies enough of it. -/
def natCharsAux : Nat → Nat → List Char
  | 0, _ => []
  | fuel + 1, n =>
    if n < 10 then [Nat.digitChar n]
    else natCharsAux fuel (n / 10) ++ [Nat.digitChar (n % 10)]

/-- Decimal rendering of a natural number. -/
def natStr (n : Nat) : String := String.mk (natCharsAux (n + 1) n)

/-- Round a rational to the nearest integer, ties to even — the rounding
Python's fixed-point float formatting applies. -/
def roundHalfEven (q : ℚ) : Int :=
  if q - ⌊q⌋ < 1 / 2 then ⌊q⌋
  else if 1 / 2 < q - ⌊q⌋ then ⌊q⌋ + 1
  else if ⌊q⌋ % 2 = 0 then ⌊q⌋ else ⌊q⌋ + 1

/-- The last three decimal digits of `m`, zero-padded to width 3. -/
def pad3 (m : Nat) : String :=
  String.mk [Nat.digitChar (m % 1000 / 100), Nat.digitChar (m % 1000 / 10 % 10),
    Nat.digitChar (m % 10)]

/-- Modelled from the Python f-string `{stat:.3f}` applied to the exact
rational score: optional sign, integer part, '.', then exactly three
digits, rounding half to even. -/
def formatFixed3 (q : ℚ) : String :=
  (if roundHalfEven (q * 1000) < 0 then r"-" else r"") ++
    natStr ((roundHalfEven (q * 1000)).natAbs / 1000) ++ r"." ++
    pad3 ((roundHalfEven (q * 1000)).natAbs)

/-- Convert (playerID, stat) to formatted 'x.xxx --- First Last' strings.
The Name Lookup Table `master` (read in the source from
`info['masterfile']` through the external Table Loader, keyed by
`info['playerid']`) is passed in as an argument; `master[pid]` and the
two name-column reads raise KeyError when absent, in source order. -/
def lookup_player_names (master : List (String × Row)) (info : Info)
    (top_ids_and_stats : List (String × ℚ)) : Except Err (List String) :=
  mapE (fun e =>
    match dictGet e.1 master with
    | none => .error .keyError
    | some rw =>
      match dictGet info.firstname rw with
      | none => .error .keyError
      | some name_first =>
        match dictGet info.lastname rw with
        | none => .error .keyError
        | some name_last =>
          .ok (formatFixed3 e.2 ++ r" --- " ++ name_first ++ r" " ++ name_last))
    top_ids_and_stats

/-- The formatted string `lookup_player_names` builds for one entry, with
missing lookups defaulting to the empty name (the defaults are never used
under the hypotheses of the theorems below). -/
def resolveName (master : List (String × Row)) (info : Info)
    (e : String × ℚ) : String :=
  formatFixed3 e.2 ++ r" --- " ++
    (((dictGet e.1 master).bind (dictGet info.firstname)).getD r"") ++ r" " ++
    (((dictGet e.1 master).bind (dictGet info.lastname)).getD r"")

/-- The digit characters of the values 0..9 are decimal digits. -/
theorem digitChar_isDigit (n : Nat) (h : n < 10) :
    (Nat.digitChar n).isDigit = true := by
  interval_cases n <;> decide

/-- Every character `natCharsAux` emits is a decimal digit. -/
theorem natCharsAux_digits (fuel : Nat) :
    ∀ (n : Nat), ∀ c ∈ natCharsAux fuel n, c.isDigit = true := by
  induction fuel with
  | zero => intro n c hc; simp [natCharsAux] at hc
  | succ fuel ih =>
    intro n c hc
    rw [natCharsAux] at hc
    by_cases hn : n < 10
    · rw [if_pos hn] at hc
      rcases List.mem_singleton.1 hc with rfl
      exact digitChar_isDigit n hn
    · rw [if_neg hn] at hc
      rcases List.mem_append.1 hc with hc1 | hc2
      · exact ih (n / 10) c hc1
      · rcases List.mem_singleton.1 hc2 with rfl
        exact digitChar_isDigit (n % 10) (Nat.mod_lt n (by omega))

/-- The fractional part `formatFixed3` emits: three digit characters. -/
theorem pad3_structure (m : Nat) :
    (pad3 m).length = 3 ∧ ∀ c ∈ (pad3 m).toList, c.isDigit = true := by
  constructor
  · simp [pad3, String.length]
  · intro c hc
    simp only [pad3, String.toList, List.mem_cons, List.not_mem_nil,
      or_false] at hc
    rcases hc with rfl | rfl | rfl
    · exact digitChar_isDigit _ (by omega)
    · exact digitChar_isDigit _ (by omega)
    · exact digitChar_isDigit _ (by omega)

/-- The part of `formatFixed3` before the decimal point contains no
decimal point: its characters are a possible minus sign and digits. -/
theorem formatFixed3_pre_no_dot (q : ℚ) :
    ('.') ∉ ((if roundHalfEven (q * 1000) < 0 then r"-" else r"") ++
      natStr ((roundHalfEven (q * 1000)).natAbs / 1000)).toList := by
  intro hmem
  rw [String.toList, String.data_append] at hmem
  rcases List.mem_append.1 hmem with h1 | h2
  · by_cases hneg : roundHalfEven (q * 1000) < 0
    · rw [if_pos hneg] at h1
      simp at h1
    · rw [if_neg hneg] at h1
      simp at h1
  · have := natCharsAux_digits _ _ _ h2
    simp at this

/-- C6: when every ranked identifier appears in the name lookup table
with both name columns present, lookup_player_names returns, in order,
one string per entry, of the form score --- first last; and every
formatted score consists of a dot-free prefix, a decimal point, and
exactly three digit characters after it. -/
theorem C6_lookup_names_format (master : List (String × Row)) (info : Info)
    (topIds : List (String × ℚ))
    (hm : ∀ e ∈ topIds, ∃ rw, dictGet e.1 master = some rw ∧
      (dictGet info.firstname rw).isSome ∧ (dictGet info.lastname rw).isSome) :
    lookup_player_names master info topIds =
        .ok (topIds.map (resolveName master info)) ∧
      ∀ q : ℚ, ∃ pre frac : String, formatFixed3 q = pre ++ r"." ++ frac ∧
        frac.length = 3 ∧ (∀ c ∈ frac.toList, c.isDigit = true) ∧
        ('.') ∉ pre.toList := by
  constructor
  · induction topIds with
    | nil => simp [lookup_player_names, mapE]
    | cons e rest ih =>
      obtain ⟨rw, hrw, hf, hl⟩ := hm e (List.mem_cons_self e rest)
      obtain ⟨nf, hnf⟩ := Option.isSome_iff_exists.1 hf
      obtain ⟨nl, hnl⟩ := Option.isSome_iff_exists.1 hl
      have ihr := ih (fun x hx => hm x (List.mem_cons_of_mem e hx))
      rw [lookup_player_names] at ihr
      simp [lookup_player_names, mapE, hrw, hnf, hnl, ihr, resolveName]
  · intro q
    refine ⟨(if roundHalfEven (q * 1000) < 0 then r"-" else r"") ++
      natStr ((roundHalfEven (q * 1000)).natAbs / 1000),
      pad3 ((roundHalfEven (q * 1000)).natAbs), ?_, (pad3_structure _).1,
      (pad3_structure _).2, formatFixed3_pre_no_dot q⟩
    rw [formatFixed3]

/-- A concrete Name Lookup Table for the resolver witnesses. -/
def masterW : List (String × Row) :=
  [(r"p1", [(r"playerID", r"p1"), (r"nameFirst", r"Babe"), (r"nameLast", r"Ruth")]),
   (r"p2", [(r"playerID", r"p2"), (r"nameFirst", r"Ty"), (r"nameLast", r"Cobb")])]

/-- A concrete ranked list whose identifier is in `masterW`. -/
def topW : List (String × ℚ) := [(r"p1", (2 : ℚ))]

/-- Witness for C6: the single entry (p1, 2) formats to 2.000 --- Babe
Ruth. -/
theorem C6_lookup_names_format_witness :
    lookup_player_names masterW infoW topW = .ok [r"2.000 --- Babe Ruth"] := by
  have h := (C6_lookup_names_format masterW infoW topW (by
    intro e he
    simp only [topW, List.mem_cons, List.not_mem_nil, or_false] at he
    subst he
    exact ⟨[(r"playerID", r"p1"), (r"nameFirst", r"Babe"), (r"nameLast", r"Ruth")],
      by decide, by decide, by decide⟩)).1
  rw [h]
  have hfl : ((2 : ℚ) * 1000) = 2000 := by norm_num
  have hflo : (⌊(2000 : ℚ)⌋ : Int) = 2000 := by norm_num
  have hr : roundHalfEven ((2 : ℚ) * 1000) = 2000 := by
    rw [hfl, roundHalfEven, hflo]
    norm_num
  have hfmt : formatFixed3 2 = r"2.000" := by
    rw [formatFixed3, hr]
    decide
  simp only [topW, List.map_cons, List.map_nil, resolveName]
  rw [hfmt]
  decide

/-- C8 helper: when some ranked identifier is missing from the table and
every table record carries both name columns, the resolver raises
KeyError. -/
theorem lookup_keyError_of_missing (master : List (String × Row)) (info : Info)
    (topIds : List (String × ℚ))
    (hm : ∀ p rw, dictGet p master = some rw →
      (dictGet info.firstname rw).isSome ∧ (dictGet info.lastname rw).isSome)
    (hmiss : ∃ e ∈ topIds, dictGet e.1 master = none) :
    lookup_player_names master info topIds = .error Err.keyError := by
  induction topIds with
  | nil => simp at hmiss
  | cons e rest ih =>
    cases hge : dictGet e.1 master with
    | none => simp [lookup_player_names, mapE, hge]
    | some rw =>
      obtain ⟨hf, hl⟩ := hm e.1 rw hge
      obtain ⟨nf, hnf⟩ := Option.isSome_iff_exists.1 hf
      obtain ⟨nl, hnl⟩ := Option.isSome_iff_exists.1 hl
      obtain ⟨x, hx, hxm⟩ := hmiss
      rcases List.mem_cons.1 hx with rfl | hx2
      · rw [hge] at hxm
        exact absurd hxm (by simp)
      · have ihm := ih ⟨x, hx2, hxm⟩
        rw [lookup_player_names] at ihm
        simp [lookup_player_names, mapE, hge, hnf, hnl, ihm]

/-- C8 helper: when every ranked identifier is in the table and every
table record carries both name columns, the resolver succeeds. -/
theorem lookup_ok_of_present (master : List (String × Row)) (info : Info)
    (topIds : List (String × ℚ))
    (hm : ∀ p rw, dictGet p master = some rw →
      (dictGet info.firstname rw).isSome ∧ (dictGet info.lastname rw).isSome)
    (hall : ∀ e ∈ topIds, (dictGet e.1 master).isSome) :
    ∃ l, lookup_player_names master info topIds = .ok l := by
  induction topIds with
  | nil => exact ⟨[], by simp [lookup_player_names, mapE]⟩
  | cons e rest ih =>
    obtain ⟨rw, hrw⟩ := Option.isSome_iff_exists.1
      (hall e (List.mem_cons_self e rest))
    obtain ⟨hf, hl⟩ := hm e.1 rw hrw
    obtain ⟨nf, hnf⟩ := Option.isSome_iff_exists.1 hf
    obtain ⟨nl, hnl⟩ := Option.isSome_iff_exists.1 hl
    obtain ⟨l, hlk⟩ := ih (fun x hx => hall x (List.mem_cons_of_mem e hx))
    rw [lookup_player_names] at hlk
    exact ⟨(formatFixed3 e.2 ++ r" --- " ++ nf ++ r" " ++ nl) :: l,
      by simp [lookup_player_names, mapE, hrw, hnf, hnl, hlk]⟩

/-- C8: provided every record of the name lookup table carries both name
columns (as rows loaded from a CSV header do), lookup_player_names fails
with KeyError exactly when some ranked identifier is absent from the
table, and succeeds with the formatted strings otherwise. -/
theorem C8_keyerror_iff_missing_id (master : List (String × Row)) (info : Info)
    (topIds : List (String × ℚ))
    (hm : ∀ p rw, dictGet p master = some rw →
      (dictGet info.firstname rw).isSome ∧ (dictGet info.lastname rw).isSome) :
    (lookup_player_names master info topIds = .error Err.keyError ↔
        ∃ e ∈ topIds, dictGet e.1 master = none) ∧
      ((∀ e ∈ topIds, (dictGet e.1 master).isSome) →
        ∃ l, lookup_player_names master info topIds = .ok l) := by
  refine ⟨⟨?_, lookup_keyError_of_missing master info topIds hm⟩,
    lookup_ok_of_present master info topIds hm⟩
  intro herr
  by_contra hno
  push_neg at hno
  have hall : ∀ e ∈ topIds, (dictGet e.1 master).isSome := by
    intro e he
    cases hge : dictGet e.1 master with
    | none => exact absurd hge (hno e he)
    | some rw => simp
  obtain ⟨l, hl⟩ := lookup_ok_of_present master info topIds hm hall
  rw [hl] at herr
  exact absurd herr (by simp)

/-- A ranked list naming an identifier absent from `masterW`. -/
def topMissW : List (String × ℚ) := [(r"p1", (2 : ℚ)), (r"zz", (1 : ℚ))]

/-- Witness for C8: with identifier zz absent from `masterW` the resolver
raises KeyError, and on `topW` (all identifiers present) it succeeds. -/
theorem C8_keyerror_iff_missing_id_witness :
    (lookup_player_names masterW infoW topMissW = .error Err.keyError ↔
        ∃ e ∈ topMissW, dictGet e.1 masterW = none) ∧
      ((∀ e ∈ topMissW, (dictGet e.1 masterW).isSome) →
        ∃ l, lookup_player_names masterW infoW topMissW = .ok l) :=
  C8_keyerror_iff_missing_id masterW infoW topMissW (by
    intro p rw hrw
    simp only [masterW, dictGet] at hrw
    by_cases h1 : (r"p1" : String) = p
    · rw [if_pos h1] at hrw
      cases hrw
      exact ⟨by decide, by decide⟩
    · rw [if_neg h1] at hrw
      by_cases h2 : (r"p2" : String) = p
      · rw [if_pos h2] at hrw
        cases hrw
        exact ⟨by decide, by decide⟩
      · rw [if_neg h2] at hrw
        exact absurd hrw (by simp))

/-- Aggregate record values: the playerid key keeps the raw id string,
the summed fields hold Python ints. -/
inductive AggVal where
  | vstr (s : String)
  | vint (n : Int)
deriving DecidableEq

/-- An Aggregate Record: a Python dict from column name to value. -/
abbrev AggRec : Type := List (String × AggVal)

/-- `res[pid] = {playerid: pid}` followed by `res[pid][field] = 0` for
each field in fields. -/
def initRecord (playerid pid : String) (fields : List String) : AggRec :=
  fields.foldl (fun r f => dictInsert f (AggVal.vint 0) r)
    [(playerid, AggVal.vstr pid)]

/-- `res[pid][field] += int(stat[field])`: KeyError when the column is
absent from the row or the field absent from the record, ValueError when
the text does not parse as an int, TypeError when the record value is
not an int. -/
def addField (stat : Row) (r : AggRec) (field : String) : Except Err AggRec :=
  match dictGet field stat with
  | none => .error .keyError
  | some s =>
    match pyInt s with
    | none => .error .parseError
    | some n =>
      match dictGet field r with
      | some (AggVal.vint m) => .ok (dictInsert field (AggVal.vint (m + n)) r)
      | some (AggVal.vstr _) => .error .typeError
      | none => .error .keyError

/-- A Python for-loop threading an accumulator, aborting at the first
raised exception. -/
def foldE {σ α : Type} (f : σ → α → Except Err σ) (init : σ) :
    List α → Except Err σ
  | [] => .ok init
  | x :: xs =>
    match f init x with
    | .error e => .error e
    | .ok s => foldE f s xs

/-- Loop body of aggregate_by_player_id for one stat row: create the
record at first appearance, then add every field of the row into it. -/
def aggStep (playerid : String) (fields : List String)
    (res : List (String × AggRec)) (stat : Row) :
    Except Err (List (String × AggRec)) :=
  match dictGet playerid stat with
  | none => .error .keyError
  | some pid =>
    match foldE (addField stat)
        ((dictGet pid res).getD (initRecord playerid pid fields)) fields with
    | .error e => .error e
    | .ok r => .ok (dictInsert pid r res)

/-- Aggregate specified numeric fields by player, include playerid key
(list(res.values()) is `(aggregate_by_player_id ...).map Prod.snd`). -/
def aggregate_by_player_id (statistics : List Row) (playerid : String)
    (fields : List String) : Except Err (List (String × AggRec)) :=
  foldE (aggStep playerid fields) [] statistics

/-- The parsed integer at a row's column, defaulting to 0 (the default is
never reached under the parse hypotheses of the theorems below). -/
def pyIntD (stat : Row) (field : String) : Int :=
  ((dictGet field stat).bind pyInt).getD 0

/-- Total form of `addField`, agreeing with it when the parse succeeds. -/
def bump (stat : Row) (r : AggRec) (field : String) : AggRec :=
  match dictGet field r with
  | some (AggVal.vint m) =>
    dictInsert field (AggVal.vint (m + pyIntD stat field)) r
  | _ => r

/-- One row folded into a record over all fields. -/
def applyRow (fields : List String) (r : AggRec) (stat : Row) : AggRec :=
  fields.foldl (bump stat) r

/-- Several rows folded into a record. -/
def applyRows (fields : List String) (r : AggRec) (rows : List Row) : AggRec :=
  rows.foldl (applyRow fields) r

/-- Total form of `aggStep`, agreeing with it when everything parses. -/
def aggStepT (playerid : String) (fields : List String)
    (res : List (String × AggRec)) (stat : Row) : List (String × AggRec) :=
  match dictGet playerid stat with
  | some pid =>
    dictInsert pid
      (applyRow fields ((dictGet pid res).getD (initRecord playerid pid fields))
        stat) res
  | none => res

/-- Total form of the aggregation loop. -/
def aggPure (playerid : String) (fields : List String)
    (res : List (String × AggRec)) (stats : List Row) :
    List (String × AggRec) :=
  stats.foldl (aggStepT playerid fields) res

/-- The player ids of the rows, in row order. -/
def idsOf (playerid : String) (stats : List Row) : List String :=
  stats.filterMap (dictGet playerid)

/-- The rows belonging to one player, in input order. -/
def rowsOf (playerid pid : String) (stats : List Row) : List Row :=
  stats.filter (fun s => dictGet playerid s == some pid)

/-- Deduplication keeping the first appearance of every element. -/
def dedupFirst : List String → List String
  | [] => []
  | x :: xs => x :: (dedupFirst xs).filter (fun y => decide (¬ y = x))

/-- Every record field holds an int (true of every record the
aggregation loop ever builds). -/
def GoodRec (fields : List String) (r : AggRec) : Prop :=
  ∀ f ∈ fields, ∃ m : Int, dictGet f r = some (AggVal.vint m)

/-- Reading back the key just written. -/
theorem dictGet_dictInsert_self {β : Type} (k : String) (v : β)
    (l : List (String × β)) : dictGet k (dictInsert k v l) = some v := by
  induction l with
  | nil => simp [dictGet, dictInsert]
  | cons p rest ih =>
    by_cases hk : p.1 = k
    · simp [dictGet, dictInsert, hk]
    · simp [dictGet, dictInsert, hk, ih]

/-- Writing one key does not change the others. -/
theorem dictGet_dictInsert_ne {β : Type} (k k' : String) (v : β)
    (l : List (String × β)) (h : ¬ k' = k) :
    dictGet k' (dictInsert k v l) = dictGet k' l := by
  have hkk : ¬ k = k' := fun hh => h hh.symm
  induction l with
  | nil => simp [dictGet, dictInsert, hkk]
  | cons p rest ih =>
    by_cases hk : p.1 = k
    · have hp : ¬ p.1 = k' := fun hh => hkk (hk.symm.trans hh)
      simp [dictGet, dictInsert, hk, hkk, hp]
    · simp [dictGet, dictInsert, hk, ih]

/-- A key that is read successfully is among the keys. -/
theorem dictGet_some_mem_keys {β : Type} (k : String) (v : β)
    (l : List (String × β)) (h : dictGet k l = some v) : k ∈ l.map Prod.fst := by
  induction l with
  | nil => simp [dictGet] at h
  | cons p rest ih =>
    rw [dictGet] at h
    by_cases hk : p.1 = k
    · simp [hk]
    · rw [if_neg hk] at h
      simp [ih h]

/-- A key that is absent reads as none. -/
theorem dictGet_eq_none_of_not_mem {β : Type} (k : String)
    (l : List (String × β)) (h : k ∉ l.map Prod.fst) : dictGet k l = none := by
  induction l with
  | nil => simp [dictGet]
  | cons p rest ih =>
    simp only [List.map_cons, List.mem_cons] at h
    push_neg at h
    rw [dictGet, if_neg (fun hh => h.1 hh.symm)]
    exact ih h.2

/-- Inserting keeps the key list, or appends the new key at the end. -/
theorem keys_dictInsert {β : Type} (k : String) (v : β)
    (l : List (String × β)) :
    (dictInsert k v l).map Prod.fst =
      if k ∈ l.map Prod.fst then l.map Prod.fst else l.map Prod.fst ++ [k] := by
  induction l with
  | nil => simp [dictInsert]
  | cons p rest ih =>
    by_cases hk : p.1 = k
    · simp [dictInsert, hk]
    · have hne : ¬ k = p.1 := fun hh => hk hh.symm
      simp only [dictInsert, if_neg hk, List.map_cons, ih, List.mem_cons]
      by_cases hm : k ∈ rest.map Prod.fst
      · simp [hm, hne]
      · simp [hm, hne]

/-- Bumping a field whose current value is an int. -/
theorem dictGet_bump_self (stat : Row) (r : AggRec) (field : String) (m : Int)
    (hm : dictGet field r = some (AggVal.vint m)) :
    dictGet field (bump stat r field) =
      some (AggVal.vint (m + pyIntD stat field)) := by
  rw [bump, hm]
  exact dictGet_dictInsert_self field _ r

/-- Bumping one field does not change the others. -/
theorem dictGet_bump_ne (stat : Row) (r : AggRec) (field g : String)
    (h : ¬ g = field) : dictGet g (bump stat r field) = dictGet g r := by
  rw [bump]
  cases hf : dictGet field r with
  | none => rfl
  | some v =>
    cases v with
    | vstr s => rfl
    | vint m => exact dictGet_dictInsert_ne field g _ r h

/-- Bumping preserves the key list. -/
theorem keys_bump (stat : Row) (r : AggRec) (field : String) :
    (bump stat r field).map Prod.fst = r.map Prod.fst := by
  rw [bump]
  cases hf : dictGet field r with
  | none => rfl
  | some v =>
    cases v with
    | vstr s => rfl
    | vint m =>
      rw [keys_dictInsert, if_pos (dictGet_some_mem_keys field _ r hf)]

/-- Bumping preserves `GoodRec`. -/
theorem goodRec_bump (fields : List String) (stat : Row) (r : AggRec)
    (field : String) (hg : GoodRec fields r) :
    GoodRec fields (bump stat r field) := by
  intro g hgf
  by_cases hge : g = field
  · subst hge
    obtain ⟨m, hm⟩ := hg g hgf
    exact ⟨m + pyIntD stat g, dictGet_bump_self stat r g m hm⟩
  · obtain ⟨m, hm⟩ := hg g hgf
    exact ⟨m, by rw [dictGet_bump_ne stat r field g hge]; exact hm⟩

/-- Applying one row preserves `GoodRec`. -/
theorem goodRec_applyRow (fields fields2 : List String) (stat : Row)
    (r : AggRec) (hg : GoodRec fields r) :
    GoodRec fields (applyRow fields2 r stat) := by
  induction fields2 generalizing r with
  | nil => exact hg
  | cons f fs ih =>
    rw [applyRow, List.foldl_cons]
    exact ih (bump stat r f) (goodRec_bump fields stat r f hg)

/-- Applying several rows preserves `GoodRec`. -/
theorem goodRec_applyRows (fields : List String) (rows : List Row)
    (r : AggRec) (hg : GoodRec fields r) :
    GoodRec fields (applyRows fields r rows) := by
  induction rows generalizing r with
  | nil => exact hg
  | cons row rest ih =>
    rw [applyRows, List.foldl_cons]
    exact ih (applyRow fields r row) (goodRec_applyRow fields fields row r hg)

/-- Inside the init fold every field already written, or written later,
reads as int 0. -/
theorem dictGet_initFold (fields : List String) (base : AggRec) (f : String)
    (h : f ∈ fields ∨ dictGet f base = some (AggVal.vint 0)) :
    dictGet f (fields.foldl (fun r g => dictInsert g (AggVal.vint 0) r) base) =
      some (AggVal.vint 0) := by
  induction fields generalizing base with
  | nil =>
    rcases h with h1 | h2
    · simp at h1
    · simpa using h2
  | cons g gs ih =>
    rw [List.foldl_cons]
    apply ih
    by_cases hfg : f = g
    · subst hfg
      exact Or.inr (dictGet_dictInsert_self f _ base)
    · rcases h with h1 | h2
      · rcases List.mem_cons.1 h1 with rfl | hin
        · exact absurd rfl hfg
        · exact Or.inl hin
      · exact Or.inr (by rw [dictGet_dictInsert_ne g f _ base hfg]; exact h2)

/-- Freshly initialised records are good. -/
theorem goodRec_initRecord (playerid pid : String) (fields : List String) :
    GoodRec fields (initRecord playerid pid fields) :=
  fun f hf => ⟨0, dictGet_initFold fields _ f (Or.inl hf)⟩

/-- When the row parses and the record value is an int, `addField` is the
total `bump`. -/
theorem addField_eq_bump (stat : Row) (r : AggRec) (field : String)
    (hp : ∃ n : Int, (dictGet field stat).bind pyInt = some n)
    (hr : ∃ m : Int, dictGet field r = some (AggVal.vint m)) :
    addField stat r field = .ok (bump stat r field) := by
  obtain ⟨n, hn⟩ := hp
  obtain ⟨m, hm⟩ := hr
  cases hs : dictGet field stat with
  | none => rw [hs] at hn; simp at hn
  | some s =>
    rw [hs] at hn
    simp only [Option.some_bind] at hn
    have hd : pyIntD stat field = n := by
      rw [pyIntD, hs]
      simp [hn]
    simp only [addField, bump, hs, hn, hm, hd]

/-- Under parse success and a good record, the field loop of the
aggregator is total and computes `applyRow`. -/
theorem foldE_addField_eq (stat : Row) (fields : List String) (r : AggRec)
    (hp : ∀ f ∈ fields, ∃ n : Int, (dictGet f stat).bind pyInt = some n)
    (hg : GoodRec fields r) :
    foldE (addField stat) r fields = .ok (applyRow fields r stat) := by
  induction fields generalizing r with
  | nil => simp [foldE, applyRow]
  | cons f fs ih =>
    have hstep := addField_eq_bump stat r f
      (hp f (List.mem_cons_self f fs)) (hg f (List.mem_cons_self f fs))
    rw [foldE, hstep, applyRow, List.foldl_cons]
    have hg2 : GoodRec fs (bump stat r f) := by
      intro g hgf
      exact goodRec_bump (f :: fs) stat r f hg g (List.mem_cons_of_mem f hgf)
    exact ih (bump stat r f) (fun g hgf => hp g (List.mem_cons_of_mem f hgf)) hg2

/-- Under parse success the aggregation loop is total and computes the
pure fold `aggPure`. -/
theorem aggregate_eq_aggPure (playerid : String) (fields : List String) :
    ∀ (stats : List Row) (res : List (String × AggRec)),
      (∀ stat ∈ stats, (dictGet playerid stat).isSome) →
      (∀ stat ∈ stats, ∀ f ∈ fields, ∃ n : Int, (dictGet f stat).bind pyInt = some n) →
      (∀ p r, dictGet p res = some r → GoodRec fields r) →
      foldE (aggStep playerid fields) res stats =
        .ok (aggPure playerid fields res stats) := by
  intro stats
  induction stats with
  | nil => intro res _ _ _; simp [foldE, aggPure]
  | cons stat rest ih =>
    intro res hpid hparse hres
    obtain ⟨pid, hpd⟩ := Option.isSome_iff_exists.1
      (hpid stat (List.mem_cons_self stat rest))
    have hg0 : GoodRec fields ((dictGet pid res).getD (initRecord playerid pid fields)) := by
      cases hgr : dictGet pid res with
      | none => simpa using goodRec_initRecord playerid pid fields
      | some r0 => simpa using hres pid r0 hgr
    have hfold := foldE_addField_eq stat fields
      ((dictGet pid res).getD (initRecord playerid pid fields))
      (hparse stat (List.mem_cons_self stat rest)) hg0
    simp only [foldE, aggStep, hpd, hfold]
    have hres2 : ∀ p r, dictGet p
        (dictInsert pid (applyRow fields
          ((dictGet pid res).getD (initRecord playerid pid fields)) stat) res) =
          some r → GoodRec fields r := by
      intro p r hpr
      by_cases hpp : p = pid
      · subst hpp
        rw [dictGet_dictInsert_self] at hpr
        cases hpr
        exact goodRec_applyRow fields fields stat _ hg0
      · rw [dictGet_dictInsert_ne pid p _ res hpp] at hpr
        exact hres p r hpr
    have hrec := ih (dictInsert pid (applyRow fields
        ((dictGet pid res).getD (initRecord playerid pid fields)) stat) res)
      (fun st hst => hpid st (List.mem_cons_of_mem stat hst))
      (fun st hst => hparse st (List.mem_cons_of_mem stat hst)) hres2
    rw [hrec]
    simp only [aggPure, List.foldl_cons, aggStepT, hpd]

/-- The key list of the pure aggregation fold: the keys already present,
then the new ids in order of first appearance. -/
theorem keys_aggPure (playerid : String) (fields : List String) :
    ∀ (stats : List Row) (res : List (String × AggRec)),
      (∀ stat ∈ stats, (dictGet playerid stat).isSome) →
      (aggPure playerid fields res stats).map Prod.fst =
        res.map Prod.fst ++
          (dedupFirst (idsOf playerid stats)).filter
            (fun p => decide (p ∉ res.map Prod.fst)) := by
  intro stats
  induction stats with
  | nil => intro res _; simp [aggPure, idsOf, dedupFirst]
  | cons stat rest ih =>
    intro res hpid
    obtain ⟨pid, hpd⟩ := Option.isSome_iff_exists.1
      (hpid stat (List.mem_cons_self stat rest))
    have hids : idsOf playerid (stat :: rest) = pid :: idsOf playerid rest := by
      simp [idsOf, List.filterMap_cons, hpd]
    have hstep : aggPure playerid fields res (stat :: rest) =
        aggPure playerid fields
          (dictInsert pid (applyRow fields
            ((dictGet pid res).getD (initRecord playerid pid fields)) stat) res)
          rest := by
      simp only [aggPure, List.foldl_cons, aggStepT, hpd]
    rw [hstep, ih _ (fun st hst => hpid st (List.mem_cons_of_mem stat hst)),
      keys_dictInsert, hids]
    rw [dedupFirst]
    by_cases hmem : pid ∈ res.map Prod.fst
    · rw [if_pos hmem]
      rw [List.filter_cons_of_neg (by simp [hmem])]
      rw [List.filter_filter]
      congr 1
      apply List.filter_congr
      intro a _
      by_cases h1 : a ∈ res.map Prod.fst
      · simp [h1]
      · have h2 : ¬ a = pid := fun hh => h1 (hh ▸ hmem)
        simp [h1, h2]
    · rw [if_neg hmem]
      rw [List.filter_cons_of_pos (by simp [hmem])]
      rw [List.filter_filter, List.append_assoc, List.singleton_append]
      congr 2
      apply List.filter_congr
      intro a _
      by_cases h1 : a ∈ res.map Prod.fst
      · have h3 : a ∈ res.map Prod.fst ++ [pid] := List.mem_append_left _ h1
        simp [h1, h3]
      · by_cases h2 : a = pid
        · subst h2
          have h3 : a ∈ res.map Prod.fst ++ [a] :=
            List.mem_append_right _ (List.mem_singleton.2 rfl)
          simp [h3]
        · have h3 : a ∉ res.map Prod.fst ++ [pid] := by
            simp [h1, h2]
          simp [h1, h2, h3]

/-- First-appearance deduplication never repeats an element. -/
theorem nodup_dedupFirst (l : List String) : (dedupFirst l).Nodup := by
  induction l with
  | nil => simp [dedupFirst]
  | cons x xs ih =>
    rw [dedupFirst, List.nodup_cons]
    refine ⟨?_, ih.filter _⟩
    intro hx
    have := List.of_mem_filter hx
    simp at this

/-- First-appearance deduplication keeps exactly the original elements. -/
theorem mem_dedupFirst (y : String) (l : List String) :
    y ∈ dedupFirst l ↔ y ∈ l := by
  induction l with
  | nil => simp [dedupFirst]
  | cons x xs ih =>
    rw [dedupFirst]
    by_cases hy : y = x
    · subst hy
      simp
    · simp only [List.mem_cons, hy, false_or]
      rw [← ih]
      constructor
      · intro h
        exact (List.mem_filter.1 h).1
      · intro h
        exact List.mem_filter.2 ⟨h, by simp [hy]⟩

/-- The length of the first-appearance deduplication is the number of
distinct elements. -/
theorem length_dedupFirst (l : List String) :
    (dedupFirst l).length = l.toFinset.card := by
  have hfin : (dedupFirst l).toFinset = l.toFinset := by
    ext y
    simp [List.mem_toFinset, mem_dedupFirst]
  rw [← hfin, List.toFinset_card_of_nodup (nodup_dedupFirst l)]

/-- The record at each player id after the pure aggregation fold: the
record already in the accumulator (or a fresh one at first appearance)
with all of the player's rows folded in. -/
theorem dictGet_aggPure (playerid : String) (fields : List String) :
    ∀ (stats : List Row) (res : List (String × AggRec)) (pid : String),
      (∀ stat ∈ stats, (dictGet playerid stat).isSome) →
      dictGet pid (aggPure playerid fields res stats) =
        (match dictGet pid res with
        | some r => some (applyRows fields r (rowsOf playerid pid stats))
        | none =>
          if pid ∈ idsOf playerid stats then
            some (applyRows fields (initRecord playerid pid fields)
              (rowsOf playerid pid stats))
          else none) := by
  intro stats
  induction stats with
  | nil =>
    intro res pid _
    cases h : dictGet pid res with
    | none => simp [aggPure, idsOf, rowsOf, h]
    | some r => simp [aggPure, idsOf, rowsOf, applyRows, h]
  | cons stat rest ih =>
    intro res pid hpid
    obtain ⟨q, hq⟩ := Option.isSome_iff_exists.1
      (hpid stat (List.mem_cons_self stat rest))
    have hids : idsOf playerid (stat :: rest) = q :: idsOf playerid rest := by
      simp [idsOf, List.filterMap_cons, hq]
    have hstep : aggPure playerid fields res (stat :: rest) =
        aggPure playerid fields
          (dictInsert q (applyRow fields
            ((dictGet q res).getD (initRecord playerid q fields)) stat) res)
          rest := by
      simp only [aggPure, List.foldl_cons, aggStepT, hq]
    rw [hstep, ih _ pid (fun st hst => hpid st (List.mem_cons_of_mem stat hst))]
    by_cases hpq : pid = q
    · subst hpq
      rw [dictGet_dictInsert_self]
      have hrows : rowsOf playerid pid (stat :: rest) =
          stat :: rowsOf playerid pid rest := by
        rw [rowsOf, List.filter_cons_of_pos (by simp [hq])]
        rfl
      have happ : ∀ r : AggRec,
          applyRows fields r (rowsOf playerid pid (stat :: rest)) =
            applyRows fields (applyRow fields r stat) (rowsOf playerid pid rest) := by
        intro r
        rw [hrows, applyRows, List.foldl_cons]
        rfl
      cases hr : dictGet pid res with
      | some r => exact congrArg some (happ r).symm
      | none =>
        have hin : pid ∈ idsOf playerid (stat :: rest) := by
          rw [hids]
          exact List.mem_cons_self pid _
        show some (applyRows fields (applyRow fields
            ((none : Option AggRec).getD (initRecord playerid pid fields)) stat)
            (rowsOf playerid pid rest)) =
          if pid ∈ idsOf playerid (stat :: rest) then
            some (applyRows fields (initRecord playerid pid fields)
              (rowsOf playerid pid (stat :: rest)))
          else none
        rw [if_pos hin]
        exact congrArg some (happ _).symm
    · rw [dictGet_dictInsert_ne q pid _ res hpq]
      have hrows : rowsOf playerid pid (stat :: rest) = rowsOf playerid pid rest := by
        rw [rowsOf, List.filter_cons_of_neg ?_]
        · rfl
        · simp only [hq, beq_iff_eq, Option.some.injEq]
          exact fun hh => hpq hh.symm
      have hmemiff : (pid ∈ idsOf playerid (stat :: rest)) =
          (pid ∈ idsOf playerid rest) := by
        rw [hids]
        simp [hpq]
      cases hr : dictGet pid res with
      | some r => rw [hrows]
      | none =>
        rw [hrows]
        simp [hids, hpq]

/-- The init fold appends the fresh field keys in order. -/
theorem keys_initFold (fields : List String) (base : AggRec)
    (hn : fields.Nodup) (hb : ∀ f ∈ fields, f ∉ base.map Prod.fst) :
    (fields.foldl (fun r g => dictInsert g (AggVal.vint 0) r) base).map Prod.fst =
      base.map Prod.fst ++ fields := by
  induction fields generalizing base with
  | nil => simp
  | cons g gs ih =>
    rw [List.foldl_cons]
    have hkeys : (dictInsert g (AggVal.vint 0) base).map Prod.fst =
        base.map Prod.fst ++ [g] := by
      rw [keys_dictInsert, if_neg (hb g (List.mem_cons_self g gs))]
    rw [ih (dictInsert g (AggVal.vint 0) base) (List.Nodup.of_cons hn) ?_, hkeys,
      List.append_assoc, List.singleton_append]
    intro f hf
    rw [hkeys]
    intro hmem
    rcases List.mem_append.1 hmem with h1 | h2
    · exact hb f (List.mem_cons_of_mem g hf) h1
    · rcases List.mem_singleton.1 h2 with rfl
      exact (List.nodup_cons.1 hn).1 hf

/-- The key list of a fresh record is the playerid key then the fields. -/
theorem keys_initRecord (playerid pid : String) (fields : List String)
    (hn : fields.Nodup) (hni : playerid ∉ fields) :
    (initRecord playerid pid fields).map Prod.fst = playerid :: fields := by
  rw [initRecord, keys_initFold fields _ hn ?_]
  · rfl
  · intro f hf
    simp only [List.map_cons, List.map_nil, List.mem_singleton]
    exact fun hh => hni (hh ▸ hf)

/-- The init fold leaves keys outside the field list untouched. -/
theorem dictGet_initFold_ne (fields : List String) (base : AggRec) (k : String)
    (hk : ∀ f ∈ fields, ¬ k = f) :
    dictGet k (fields.foldl (fun r g => dictInsert g (AggVal.vint 0) r) base) =
      dictGet k base := by
  induction fields generalizing base with
  | nil => rfl
  | cons g gs ih =>
    rw [List.foldl_cons, ih _ (fun f hf => hk f (List.mem_cons_of_mem g hf)),
      dictGet_dictInsert_ne g k _ base (hk g (List.mem_cons_self g gs))]

/-- A fresh record maps the playerid key to the raw id string. -/
theorem dictGet_initRecord_playerid (playerid pid : String)
    (fields : List String) (hni : playerid ∉ fields) :
    dictGet playerid (initRecord playerid pid fields) =
      some (AggVal.vstr pid) := by
  rw [initRecord, dictGet_initFold_ne fields _ playerid
    (fun f hf => fun hh => hni (hh ▸ hf))]
  simp [dictGet]

/-- Applying a row preserves the key list. -/
theorem keys_applyRow (fields : List String) (r : AggRec) (stat : Row) :
    (applyRow fields r stat).map Prod.fst = r.map Prod.fst := by
  induction fields generalizing r with
  | nil => rfl
  | cons f fs ih =>
    rw [applyRow, List.foldl_cons]
    have := ih (bump stat r f)
    rw [applyRow] at this
    rw [this, keys_bump]

/-- Applying several rows preserves the key list. -/
theorem keys_applyRows (fields : List String) (rows : List Row) (r : AggRec) :
    (applyRows fields r rows).map Prod.fst = r.map Prod.fst := by
  induction rows generalizing r with
  | nil => rfl
  | cons row rest ih =>
    rw [applyRows, List.foldl_cons]
    have := ih (applyRow fields r row)
    rw [applyRows] at this
    rw [this, keys_applyRow]

/-- Applying a row leaves keys outside the field list untouched. -/
theorem dictGet_applyRow_ne (fields : List String) (r : AggRec) (stat : Row)
    (k : String) (hk : ∀ f ∈ fields, ¬ k = f) :
    dictGet k (applyRow fields r stat) = dictGet k r := by
  induction fields generalizing r with
  | nil => rfl
  | cons f fs ih =>
    rw [applyRow, List.foldl_cons]
    have := ih (bump stat r f) (fun g hg => hk g (List.mem_cons_of_mem f hg))
    rw [applyRow] at this
    rw [this, dictGet_bump_ne stat r f k (hk f (List.mem_cons_self f fs))]

/-- Applying rows leaves keys outside the field list untouched. -/
theorem dictGet_applyRows_ne (fields : List String) (rows : List Row)
    (r : AggRec) (k : String) (hk : ∀ f ∈ fields, ¬ k = f) :
    dictGet k (applyRows fields r rows) = dictGet k r := by
  induction rows generalizing r with
  | nil => rfl
  | cons row rest ih =>
    rw [applyRows, List.foldl_cons]
    have := ih (applyRow fields r row)
    rw [applyRows] at this
    rw [this, dictGet_applyRow_ne fields r row k hk]

/-- Applying a row bumps each (distinct) field exactly once. -/
theorem dictGet_applyRow_mem (fields : List String) (stat : Row) (f : String)
    (hn : fields.Nodup) (hf : f ∈ fields) :
    ∀ (r : AggRec) (m : Int), dictGet f r = some (AggVal.vint m) →
      dictGet f (applyRow fields r stat) =
        some (AggVal.vint (m + pyIntD stat f)) := by
  induction fields with
  | nil => simp at hf
  | cons g gs ih =>
    intro r m hm
    rw [applyRow, List.foldl_cons]
    by_cases hfg : f = g
    · subst hfg
      have hnot : f ∉ gs := (List.nodup_cons.1 hn).1
      have hrest : dictGet f (gs.foldl (bump stat) (bump stat r f)) =
          dictGet f (bump stat r f) := by
        have := dictGet_applyRow_ne gs (bump stat r f) stat f
          (fun g2 hg2 => fun hh => hnot (hh ▸ hg2))
        rw [applyRow] at this
        exact this
      rw [hrest, dictGet_bump_self stat r f m hm]
    · have hfs : f ∈ gs := by
        rcases List.mem_cons.1 hf with rfl | h2
        · exact absurd rfl hfg
        · exact h2
      have hm2 : dictGet f (bump stat r g) = some (AggVal.vint m) := by
        rw [dictGet_bump_ne stat r g f hfg, hm]
      have := ih (List.Nodup.of_cons hn) hfs (bump stat r g) m hm2
      rw [applyRow] at this
      exact this

/-- Applying a run of rows adds the per-row parsed values of each field. -/
theorem dictGet_applyRows_sum (fields : List String) (f : String)
    (hn : fields.Nodup) (hf : f ∈ fields) :
    ∀ (rows : List Row) (r : AggRec) (m : Int),
      dictGet f r = some (AggVal.vint m) →
      dictGet f (applyRows fields r rows) =
        some (AggVal.vint (m + ((rows.map (fun s => pyIntD s f)).sum))) := by
  intro rows
  induction rows with
  | nil => intro r m hm; simpa [applyRows] using hm
  | cons row rest ih =>
    intro r m hm
    rw [applyRows, List.foldl_cons]
    have hstep := dictGet_applyRow_mem fields row f hn hf r m hm
    have := ih (applyRow fields r row) (m + pyIntD row f) hstep
    rw [applyRows] at this
    rw [this, List.map_cons, List.sum_cons]
    ring_nf

/-- C4: when every named field of every row parses as an integer (and the
field names are distinct and do not include the player-id column),
aggregate_by_player_id succeeds and produces exactly one record per
distinct player identifier, listed in order of first appearance; each
record's keys are exactly the player-id key plus the named fields, the
player-id key holds the id, and each named field holds the integer sum of
that field over exactly that player's rows. -/
theorem C4_aggregate_sums_by_first_appearance (statistics : List Row)
    (playerid : String) (fields : List String)
    (hpid : ∀ stat ∈ statistics, (dictGet playerid stat).isSome)
    (hparse : ∀ stat ∈ statistics, ∀ f ∈ fields,
      ∃ n : Int, (dictGet f stat).bind pyInt = some n)
    (hn : fields.Nodup) (hni : playerid ∉ fields) :
    ∃ agg, aggregate_by_player_id statistics playerid fields = .ok agg ∧
      agg.map Prod.fst = dedupFirst (idsOf playerid statistics) ∧
      agg.length = (idsOf playerid statistics).toFinset.card ∧
      ∀ pid rec2, dictGet pid agg = some rec2 →
        rec2.map Prod.fst = playerid :: fields ∧
        dictGet playerid rec2 = some (AggVal.vstr pid) ∧
        ∀ f ∈ fields, dictGet f rec2 =
          some (AggVal.vint
            (((rowsOf playerid pid statistics).map (fun s => pyIntD s f)).sum)) := by
  have hkeys : (aggPure playerid fields [] statistics).map Prod.fst =
      dedupFirst (idsOf playerid statistics) := by
    have := keys_aggPure playerid fields statistics [] hpid
    simpa using this
  refine ⟨aggPure playerid fields [] statistics, ?_, hkeys, ?_, ?_⟩
  · exact aggregate_eq_aggPure playerid fields statistics [] hpid hparse
      (by intro p r h; simp [dictGet] at h)
  · rw [← List.length_map (aggPure playerid fields [] statistics) Prod.fst,
      hkeys, length_dedupFirst]
  · intro pid rec2 hrec
    have hg := dictGet_aggPure playerid fields statistics [] pid hpid
    simp only [dictGet] at hg
    rw [hrec] at hg
    by_cases hmem : pid ∈ idsOf playerid statistics
    · rw [if_pos hmem] at hg
      have hrec2 : rec2 = applyRows fields (initRecord playerid pid fields)
          (rowsOf playerid pid statistics) := Option.some.inj hg
      subst hrec2
      refine ⟨?_, ?_, ?_⟩
      · rw [keys_applyRows, keys_initRecord playerid pid fields hn hni]
      · rw [dictGet_applyRows_ne fields _ _ playerid
          (fun f hf => fun hh => hni (hh ▸ hf))]
        exact dictGet_initRecord_playerid playerid pid fields hni
      · intro f hf
        have h0 : dictGet f (initRecord playerid pid fields) =
            some (AggVal.vint 0) :=
          dictGet_initFold fields _ f (Or.inl hf)
        have := dictGet_applyRows_sum fields f hn hf
          (rowsOf playerid pid statistics) (initRecord playerid pid fields) 0 h0
        simpa using this
    · rw [if_neg hmem] at hg
      exact absurd hg (by simp)

/-- Concrete rows for the aggregation witness: players p1, p2, p1. -/
def statsW4 : List Row :=
  [[(r"playerID", r"p1"), (r"AB", r"300"), (r"H", r"100")],
   [(r"playerID", r"p2"), (r"AB", r"400"), (r"H", r"120")],
   [(r"playerID", r"p1"), (r"AB", r"250"), (r"H", r"80")]]

/-- The summed fields of the aggregation witness. -/
def fieldsW4 : List String := [r"AB", r"H"]

/-- Witness for C4 over three rows of two players. -/
theorem C4_aggregate_sums_by_first_appearance_witness :
    ∃ agg, aggregate_by_player_id statsW4 r"playerID" fieldsW4 = .ok agg ∧
      agg.map Prod.fst = dedupFirst (idsOf r"playerID" statsW4) ∧
      agg.length = (idsOf r"playerID" statsW4).toFinset.card ∧
      ∀ pid rec2, dictGet pid agg = some rec2 →
        rec2.map Prod.fst = r"playerID" :: fieldsW4 ∧
        dictGet r"playerID" rec2 = some (AggVal.vstr pid) ∧
        ∀ f ∈ fieldsW4, dictGet f rec2 =
          some (AggVal.vint
            (((rowsOf r"playerID" pid statsW4).map (fun s => pyIntD s f)).sum)) :=
  C4_aggregate_sums_by_first_appearance statsW4 r"playerID" fieldsW4
    (by decide)
    (by
      have hd : ∀ stat ∈ statsW4, ∀ f ∈ fieldsW4,
          ((dictGet f stat).bind pyInt).isSome = true := by decide
      intro stat hst f hf
      exact Option.isSome_iff_exists.1 (hd stat hst f hf))
    (by decide) (by decide)
